import Mathlib

/-!
Verification of the log-watcher stream-to-signal engine
(`src/log_watcher/log_watcher.py`).

Shallow embedding notes:
* Strings are Lean `String` / `List Char`; the regular expressions used by
  the Python code (`re.search` with a lazy group and a lookahead, and
  `re.findall` of three-digit runs) are embedded as executable recursive
  scanners with the exact leftmost / lazy / non-overlapping semantics of
  the source, restricted to ASCII character classes (the log lines the
  program processes are ASCII).
* Clock readings (`datetime.utcnow()`) and the cooldown are rationals;
  `datetime.min` becomes an arbitrary initial rational.  The floating
  point error rate is modelled exactly over `ℚ`.
* Delivery (`send_slack_alert`) returns a boolean the code ignores; the
  step function receives the two would-be delivery results as unused
  boolean arguments, mirroring that the state is independent of them.
-/

/-- ASCII approximation of Python's `\s` / `str.strip()` whitespace. -/
def pyIsSpace (c : Char) : Bool :=
  c = ' ' || c = '\t' || c = '\n' || c = '\r' || c = '\x0b' || c = '\x0c'

/-- The character class `[a-zA-Z0-9_+-]` from the lookahead in `parse_line`. -/
def isWordChar (c : Char) : Bool :=
  c.isAlphanum || c = '_' || c = '+' || c = '-'

/-- Python `str.strip()` on a character list: drop whitespace on both ends. -/
def pyStrip (l : List Char) : List Char :=
  ((l.dropWhile pyIsSpace).reverse.dropWhile pyIsSpace).reverse

/-- Python `str.strip()` on strings. -/
def pyStripStr (s : String) : String :=
  String.mk (pyStrip s.data)

/-- The lookahead `(?=\s+[a-zA-Z0-9_+-]+:)` of `parse_line`'s regex,
tested at the head of the suffix `l`: at least one whitespace character,
then at least one word character, then a colon.  The two classes are
disjoint, so greedy scanning is exact. -/
def lookaheadB (l : List Char) : Bool :=
  let l1 := l.dropWhile pyIsSpace
  decide (l1.length < l.length) &&
    (let l2 := l1.dropWhile isWordChar
     decide (l2.length < l1.length) && (l2.head? = some ':'))

/-- The lazy group `(?P<val>.*?)` followed by `(?=\s+[a-zA-Z0-9_+-]+:|$)`:
starting at the head of `l`, return the shortest run of non-newline
characters after which the lookahead succeeds or the string ends (Python's
`$` also matches just before one trailing newline).  `none` when a newline
blocks the lazy group before any stop position. -/
def grab : List Char → Option (List Char)
  | [] => some []
  | c :: rest =>
    if c :: rest = ['\n'] ∨ lookaheadB (c :: rest) then some []
    else if c = '\n' then none
    else (grab rest).map (fun v => c :: v)

/-- Embedding of `re.search` for pattern `marker ++ lazy-value ++ lookahead`: try every
start position left to right, match the literal marker there, then run the
lazy group; on failure resume at the next position. -/
def searchKey (marker : List Char) : List Char → Option (List Char)
  | [] => none
  | c :: rest =>
    if marker.isPrefixOf (c :: rest) then
      match grab ((c :: rest).drop marker.length) with
      | some v => some v
      | none => searchKey marker rest
    else searchKey marker rest

/-- The six recognized field names, in the order `parse_line` probes them. -/
def keys : List String :=
  ["pool", "release", "upstream_status", "upstream_addr",
   "request_time", "upstream_response_time"]

/-- One probe of `parse_line`'s loop body: search the line for `k:`,
strip the matched value, and pair it with its key. -/
def fieldFn (line : String) (k : String) : Option (String × String) :=
  (searchKey (k.data ++ [':']) line.data).map fun v => (k, String.mk (pyStrip v))

/-- Embedding of `parse_line`: for each key, search the line for `key:` and take the
lazily-matched value, stripped; collect the fields found (in key order)
and return `none` (Python `None`, "no match") when none matched. -/
def parse_line (line : String) : Option (List (String × String)) :=
  let data := keys.filterMap (fieldFn line)
  if data.isEmpty then none else some data

/-- Numeric value of three digit characters. -/
def tripleVal (c1 c2 c3 : Char) : Nat :=
  100 * (c1.toNat - 48) + 10 * (c2.toNat - 48) + (c3.toNat - 48)

/-- Embedding of `re.findall` for three-digit groups: scan left to right; at each position match
exactly three digits (consuming them) or advance one character. -/
def findTriples : List Char → List Nat
  | c1 :: c2 :: c3 :: rest =>
    if c1.isDigit && c2.isDigit && c3.isDigit then
      tripleVal c1 c2 c3 :: findTriples rest
    else
      findTriples (c2 :: c3 :: rest)
  | _ => []

/-- Embedding of `is_5xx`: true iff some extracted three-digit token lies in `[500, 600)`.
(The `int(c)` in the source cannot fail on a `\d{3}` token, so the
`try`/`except` is a no-op and the loop is an `any`.) -/
def is_5xx (status_str : String) : Bool :=
  if status_str = "" then false
  else (findTriples status_str.data).any fun code => 500 ≤ code && code < 600

/-! ## The engine: state and per-line step of `main`'s loop -/

/-- Immutable configuration loaded at startup (`MAINTENANCE_MODE`,
`ALERT_COOLDOWN_SEC`, `ERROR_RATE_THRESHOLD`, `WINDOW_SIZE`). -/
structure Config where
  maintenance : Bool
  cooldown : ℚ
  threshold : ℚ
  windowSize : Nat
deriving DecidableEq

/-- Mutable loop state of `main`: the sliding window of error outcomes,
the two last-fired timestamps, and `last_pool` (Python `None` is `none`;
note the empty string is a distinct, non-`none` value, as in Python). -/
structure WatcherState where
  window : List Bool
  lastFailoverAlert : ℚ
  lastErrorAlert : ℚ
  lastPool : Option String
deriving DecidableEq

/-- Initial state; `tmin` stands for `datetime.min`. -/
def initState (tmin : ℚ) : WatcherState :=
  ⟨[], tmin, tmin, none⟩

/-- What the gate decided for one candidate alert. `fired` is the only
outcome in which `send_slack_alert` is invoked. -/
inductive GateOutcome where
  | fired
  | suppressed
  | throttled
deriving DecidableEq

/-- Python truthiness of an optional string: not `None` and non-empty. -/
def truthyS : Option String → Bool
  | some s => !(s = "")
  | none => false

/-- The shared alert-gating policy applied to one candidate of a class
with last-fired timestamp `last` at clock reading `now`: maintenance
suppresses (timestamp kept); elapsed time strictly above the cooldown
fires (timestamp becomes `now`); otherwise throttled (timestamp kept). -/
def gate (maintenance : Bool) (cooldown last now : ℚ) : ℚ × GateOutcome :=
  if maintenance then (last, .suppressed)
  else if now - last > cooldown then (now, .fired)
  else (last, .throttled)

/-- Python `deque` append under capacity `N`: append, then drop from the left down to
the capacity (at most one element under the length invariant; `N = 0`
keeps the deque empty, as in Python). -/
def observe (N : Nat) (w : List Bool) (e : Bool) : List Bool :=
  let w' := w ++ [e]
  w'.drop (w'.length - N)

/-- The rate `sum(window) / len(window) * 100.0`, exactly over `ℚ`. -/
def errRate (w : List Bool) : ℚ :=
  ((w.count true : ℚ) / (w.length : ℚ)) * 100

/-- Line 150 of the source: `if last_pool is None: last_pool = pool`. -/
def initLastPool (lp pool : Option String) : Option String :=
  match lp with
  | none => pool
  | some v => some v

/-- The test `pool and last_pool and pool != last_pool` of line 154. -/
def failoverCond (lp0 pool : Option String) : Bool :=
  truthyS pool && truthyS lp0 && !(pool = lp0)

/-- The failover-detection block: on `pool and last_pool and
pool != last_pool` raise a candidate through the gate and adopt the new
pool in every branch; otherwise leave everything unchanged.  Returns
(new `last_pool`, new last-fired timestamp, outcome if a candidate was
raised). -/
def failoverPhase (cfg : Config) (lastFo : ℚ) (lp0 pool : Option String)
    (now1 : ℚ) : Option String × ℚ × Option GateOutcome :=
  if failoverCond lp0 pool then
    (pool, (gate cfg.maintenance cfg.cooldown lastFo now1).1,
     some (gate cfg.maintenance cfg.cooldown lastFo now1).2)
  else (lp0, lastFo, none)

/-- The error-rate block: skipped when the window is empty (`continue`);
a candidate is raised through the gate exactly when the rate strictly
exceeds the threshold. -/
def errorPhase (cfg : Config) (lastErr : ℚ) (w1 : List Bool) (now2 : ℚ) :
    ℚ × Option GateOutcome :=
  if w1.length = 0 then (lastErr, none)
  else if errRate w1 > cfg.threshold then
    ((gate cfg.maintenance cfg.cooldown lastErr now2).1,
     some (gate cfg.maintenance cfg.cooldown lastErr now2).2)
  else (lastErr, none)

/-- One iteration of `main`'s loop on raw line `line`.  `now1`/`now2` are
the two `datetime.utcnow()` readings (failover branch, error branch);
`sendFo`/`sendErr` are the would-be `send_slack_alert` results, which the
code ignores.  Returns the new state, the failover-candidate outcome, and
the error-rate-candidate outcome (`none` = no candidate raised). -/
def stepLine (cfg : Config) (st : WatcherState) (line : String)
    (now1 now2 : ℚ) (_sendFo _sendErr : Bool) :
    WatcherState × Option GateOutcome × Option GateOutcome :=
  match parse_line line with
  | none => (st, none, none)
  | some parsed =>
    let pool := List.lookup "pool" parsed
    let upstream_status := List.lookup "upstream_status" parsed
    let lp0 := initLastPool st.lastPool pool
    let fo := failoverPhase cfg st.lastFailoverAlert lp0 pool now1
    let w1 := if truthyS upstream_status then
        observe cfg.windowSize st.window (is_5xx (upstream_status.getD ""))
      else st.window
    let er := errorPhase cfg st.lastErrorAlert w1 now2
    (⟨w1, fo.2.1, er.1, fo.1⟩, fo.2.2, er.2)

/-- A whole run: fold `stepLine` over a list of (line, now1, now2)
inputs (the ignored delivery results fixed to `true`). -/
def runLines (cfg : Config) (st : WatcherState) :
    List (String × ℚ × ℚ) → WatcherState
  | [] => st
  | (line, n1, n2) :: rest =>
    runLines cfg (stepLine cfg st line n1 n2 true true).1 rest

/-- A representative configuration for concrete evaluations: maintenance
off, 300 s cooldown, 2 % threshold, window capacity 200 (the defaults). -/
def cfgEx : Config :=
  ⟨false, 300, 2, 200⟩

/-- Like `cfgEx` but with window capacity 3. -/
def cfgEx3 : Config :=
  ⟨false, 300, 2, 3⟩

/-! ## Helper lemmas -/

theorem gate_fst_mono (m : Bool) (cd last now : ℚ) (h : 0 ≤ cd) :
    last ≤ (gate m cd last now).1 := by
  unfold gate
  split_ifs with h1 h2
  · exact le_rfl
  · simp only []
    linarith
  · exact le_rfl

theorem failoverPhase_fst_mono (cfg : Config) (lastFo : ℚ)
    (lp0 pool : Option String) (now1 : ℚ) (h : 0 ≤ cfg.cooldown) :
    lastFo ≤ (failoverPhase cfg lastFo lp0 pool now1).2.1 := by
  unfold failoverPhase
  split_ifs with h1
  · exact gate_fst_mono _ _ _ _ h
  · exact le_rfl

theorem errorPhase_fst_mono (cfg : Config) (lastErr : ℚ) (w1 : List Bool)
    (now2 : ℚ) (h : 0 ≤ cfg.cooldown) :
    lastErr ≤ (errorPhase cfg lastErr w1 now2).1 := by
  unfold errorPhase
  split_ifs with h1 h2
  · exact le_rfl
  · exact gate_fst_mono _ _ _ _ h
  · exact le_rfl

theorem stepLine_lastAlerts_mono (cfg : Config) (st : WatcherState)
    (line : String) (n1 n2 : ℚ) (b1 b2 : Bool) (h : 0 ≤ cfg.cooldown) :
    st.lastFailoverAlert ≤ (stepLine cfg st line n1 n2 b1 b2).1.lastFailoverAlert ∧
    st.lastErrorAlert ≤ (stepLine cfg st line n1 n2 b1 b2).1.lastErrorAlert := by
  cases hp : parse_line line with
  | none => simp [stepLine, hp]
  | some parsed =>
    simp only [stepLine, hp]
    exact ⟨failoverPhase_fst_mono _ _ _ _ _ h, errorPhase_fst_mono _ _ _ _ h⟩

theorem observe_length_le (N : Nat) (w : List Bool) (e : Bool)
    (h : w.length ≤ N) : (observe N w e).length ≤ N := by
  simp only [observe, List.length_drop, List.length_append, List.length_cons]
  omega

theorem observe_at_capacity (N : Nat) (w : List Bool) (e : Bool)
    (hlen : w.length = N) (hN : 1 ≤ N) : observe N w e = w.tail ++ [e] := by
  cases w with
  | nil =>
    simp only [List.length_nil] at hlen
    omega
  | cons a w' =>
    show (a :: (w' ++ [e])).drop ((a :: (w' ++ [e])).length - N) = w' ++ [e]
    have h1 : (a :: (w' ++ [e])).length - N = 1 := by
      simp only [List.length_cons, List.length_append, List.length_nil] at hlen ⊢
      omega
    rw [h1]
    simp

/-- C5: the error window is a FIFO of fixed capacity N: after every
observe its length is ≤ N; appending at capacity evicts the oldest entry;
the current rate is (count of errors) / length * 100; and a capacity-3
window fed [error, ok, ok, error] has contents [ok, ok, error] (length 3)
and rate 100/3 percent. -/
theorem c5_window_fifo :
    (∀ (N : Nat) (w : List Bool) (e : Bool), w.length ≤ N →
      (observe N w e).length ≤ N) ∧
    (∀ (N : Nat) (w : List Bool) (e : Bool), w.length = N → 1 ≤ N →
      observe N w e = w.tail ++ [e]) ∧
    (∀ w : List Bool, errRate w = ((w.count true : ℚ) / (w.length : ℚ)) * 100) ∧
    [true, false, false, true].foldl (observe 3) [] = [false, false, true] ∧
    errRate [false, false, true] = 100 / 3 := by
  refine ⟨observe_length_le, observe_at_capacity, fun w => rfl, by decide, ?_⟩
  norm_num [errRate]

/-- Witness for C5 at a concrete input. -/
theorem c5_window_fifo_witness :
    (observe 3 [true, false, true] false).length ≤ 3 ∧
    observe 3 [true, false, true] false = [false, true] ++ [false] :=
  ⟨c5_window_fifo.1 3 [true, false, true] false (by decide),
   c5_window_fifo.2.1 3 [true, false, true] false (by decide) (by decide)⟩

theorem findTriples_eq_nil (l : List Char) (h : ∀ c ∈ l, c.isDigit = false) :
    findTriples l = [] := by
  induction l using findTriples.induct with
  | case1 c1 c2 c3 rest hdig ih =>
    have h1 := h c1 (by simp)
    simp [h1] at hdig
  | case2 c1 c2 c3 rest hdig ih =>
    rw [findTriples, if_neg hdig]
    exact ih fun c hc => h c (by simp at hc ⊢; tauto)
  | case3 l h1 =>
    cases l with
    | nil => rfl
    | cons a t =>
      cases t with
      | nil => rfl
      | cons b u =>
        cases u with
        | nil => rfl
        | cons c v => exact absurd rfl (h1 a b c v)

/-- C6: the error classifier returns true iff some extracted three-digit
token (non-overlapping left-to-right scan, as `re.findall(r"(\d{3})")`
does) lies in [500, 600); fully non-digit or empty input yields false;
and the four documented examples hold. -/
theorem is_5xx_false_of_no_digit (s : String)
    (h : ∀ c ∈ s.data, c.isDigit = false) : is_5xx s = false := by
  by_cases hs : s = ""
  · simp [is_5xx, hs]
  · simp only [is_5xx, hs, if_false]
    rw [findTriples_eq_nil s.data h]
    rfl

theorem is_5xx_eq_true_iff (s : String) :
    is_5xx s = true ↔ ∃ n ∈ findTriples s.data, 500 ≤ n ∧ n < 600 := by
  by_cases hs : s = ""
  · subst hs
    constructor
    · intro h; simp [is_5xx] at h
    · intro ⟨n, hn, _⟩
      simp only [show ("" : String).data = [] from rfl] at hn
      simp [findTriples] at hn
  · simp only [is_5xx, hs, if_false, List.any_eq_true]
    constructor
    · intro ⟨n, hn, hp⟩
      exact ⟨n, hn, by simpa using hp⟩
    · intro ⟨n, hn, hp⟩
      exact ⟨n, hn, by simpa using hp⟩

theorem c6_error_classifier :
    (∀ s : String, (∀ c ∈ s.data, c.isDigit = false) → is_5xx s = false) ∧
    (∀ s : String, is_5xx s = true ↔
      ∃ n ∈ findTriples s.data, 500 ≤ n ∧ n < 600) ∧
    is_5xx "500, 304" = true ∧ is_5xx "304,200" = false ∧
    is_5xx "" = false ∧ is_5xx "abc" = false :=
  ⟨is_5xx_false_of_no_digit, is_5xx_eq_true_iff,
   by decide, by decide, by decide, by decide⟩

/-- Witness for C6 at a concrete input. -/
theorem c6_error_classifier_witness : is_5xx "no digits here!" = false :=
  c6_error_classifier.1 "no digits here!" (by decide)

theorem failoverPhase_out_some (cfg : Config) (lastFo : ℚ)
    (lp0 pool : Option String) (now1 : ℚ) (o : GateOutcome)
    (h : (failoverPhase cfg lastFo lp0 pool now1).2.2 = some o) :
    ((failoverPhase cfg lastFo lp0 pool now1).2.1, o) =
      gate cfg.maintenance cfg.cooldown lastFo now1 := by
  by_cases h1 : failoverCond lp0 pool
  · simp only [failoverPhase, if_pos h1, Option.some.injEq] at h ⊢
    simp [← h]
  · simp [failoverPhase, if_neg h1] at h

theorem failoverPhase_out_none (cfg : Config) (lastFo : ℚ)
    (lp0 pool : Option String) (now1 : ℚ)
    (h : (failoverPhase cfg lastFo lp0 pool now1).2.2 = none) :
    (failoverPhase cfg lastFo lp0 pool now1).2.1 = lastFo := by
  by_cases h1 : failoverCond lp0 pool
  · simp [failoverPhase, if_pos h1] at h
  · simp [failoverPhase, if_neg h1]

theorem errorPhase_out_some (cfg : Config) (lastErr : ℚ) (w1 : List Bool)
    (now2 : ℚ) (o : GateOutcome)
    (h : (errorPhase cfg lastErr w1 now2).2 = some o) :
    ((errorPhase cfg lastErr w1 now2).1, o) =
      gate cfg.maintenance cfg.cooldown lastErr now2 := by
  unfold errorPhase at h ⊢
  split_ifs at h ⊢ with h1 h2
  have h' : (gate cfg.maintenance cfg.cooldown lastErr now2).2 = o :=
    Option.some.inj h
  rw [← h']

theorem errorPhase_out_none (cfg : Config) (lastErr : ℚ) (w1 : List Bool)
    (now2 : ℚ)
    (h : (errorPhase cfg lastErr w1 now2).2 = none) :
    (errorPhase cfg lastErr w1 now2).1 = lastErr := by
  unfold errorPhase at h ⊢
  split_ifs at h ⊢ with h1 h2 <;> rfl

theorem errorPhase_out_isSome (cfg : Config) (lastErr : ℚ) (w1 : List Bool)
    (now2 : ℚ) :
    (errorPhase cfg lastErr w1 now2).2.isSome ↔
      (w1 ≠ [] ∧ errRate w1 > cfg.threshold) := by
  unfold errorPhase
  split_ifs with h1 h2
  · simp [List.length_eq_zero.mp h1]
  · simp only [Option.isSome_some, true_iff]
    exact ⟨fun hw => h1 (by simp [hw]), h2⟩
  · constructor
    · intro hh
      simp at hh
    · intro hh
      exact absurd hh.2 h2

theorem observe_ne_nil (N : Nat) (w : List Bool) (e : Bool) (hN : 1 ≤ N) :
    observe N w e ≠ [] := by
  simp only [observe]
  intro hcontra
  have hlen := congrArg List.length hcontra
  simp only [List.length_drop, List.length_append, List.length_cons,
    List.length_nil] at hlen
  omega

/-- C9: per alert class the last-fired timestamp is monotonically
non-decreasing over a whole run, given a non-negative cooldown (the code
only ever overwrites a timestamp with a reading that exceeds it by more
than the cooldown, so not even non-decreasing clock readings are needed;
the claim's hypotheses are a fortiori sufficient). -/
theorem c9_timestamps_monotone (cfg : Config) (h : 0 ≤ cfg.cooldown)
    (st : WatcherState) (inputs : List (String × ℚ × ℚ)) :
    st.lastFailoverAlert ≤ (runLines cfg st inputs).lastFailoverAlert ∧
    st.lastErrorAlert ≤ (runLines cfg st inputs).lastErrorAlert := by
  induction inputs generalizing st with
  | nil => exact ⟨le_rfl, le_rfl⟩
  | cons p rest ih =>
    obtain ⟨line, n1, n2⟩ := p
    have hstep := stepLine_lastAlerts_mono cfg st line n1 n2 true true h
    have hrest := ih (stepLine cfg st line n1 n2 true true).1
    simp only [runLines]
    exact ⟨le_trans hstep.1 hrest.1, le_trans hstep.2 hrest.2⟩

/-- Witness for C9 at a concrete run. -/
theorem c9_timestamps_monotone_witness :
    (initState 0).lastFailoverAlert ≤
      (runLines cfgEx (initState 0)
        [("pool:a", 1, 1), ("pool:b", 400, 400),
         ("upstream_status:500", 800, 800)]).lastFailoverAlert :=
  (c9_timestamps_monotone cfgEx (by norm_num [cfgEx]) (initState 0) _).1

/-- C10: a parsed line that does not carry an upstream_status field leaves
the error window unchanged, as does an unparsable line; contrapositively,
the window changes only on lines carrying a non-empty status field. -/
theorem c10_window_frame (cfg : Config) (st : WatcherState) (line : String)
    (n1 n2 : ℚ) (b1 b2 : Bool) :
    (parse_line line = none →
      (stepLine cfg st line n1 n2 b1 b2).1.window = st.window) ∧
    (∀ d, parse_line line = some d →
      List.lookup "upstream_status" d = none →
      (stepLine cfg st line n1 n2 b1 b2).1.window = st.window) ∧
    ((stepLine cfg st line n1 n2 b1 b2).1.window ≠ st.window →
      ∃ d us, parse_line line = some d ∧
        List.lookup "upstream_status" d = some us ∧ us ≠ "") := by
  cases hp : parse_line line with
  | none =>
    refine ⟨fun _ => by simp [stepLine, hp], ?_, ?_⟩
    · intro d hd
      simp at hd
    · intro hw
      exact absurd (by simp [stepLine, hp]) hw
  | some parsed =>
    refine ⟨?_, ?_, ?_⟩
    · intro hnone
      simp at hnone
    · intro d hd hus
      injection hd with hd
      subst hd
      simp [stepLine, hp, hus, truthyS]
    · intro hw
      simp only [stepLine, hp] at hw
      cases hls : List.lookup "upstream_status" parsed with
      | none =>
        exact absurd (by simp [hls, truthyS]) hw
      | some us =>
        by_cases hne : us = ""
        · subst hne
          exact absurd (by simp [hls, truthyS]) hw
        · exact ⟨parsed, us, rfl, hls, hne⟩

/-- Witness for C10 at a concrete input: a line with a pool field but no
status field leaves a non-empty window untouched. -/
theorem c10_window_frame_witness :
    (stepLine cfgEx ⟨[true], 0, 0, none⟩ "pool:a" 5 5 true true).1.window =
      (⟨[true], 0, 0, none⟩ : WatcherState).window :=
  (c10_window_frame cfgEx ⟨[true], 0, 0, none⟩ "pool:a" 5 5 true true).2.1
    [("pool", "a")] (by decide) (by decide)

/-- C2: an error-rate candidate is raised exactly when the (post-append)
window is non-empty and its rate strictly exceeds the threshold — so a
rate equal to the threshold never raises one — and the evaluation runs on
every consumed (parsed) line, in particular on every line that carried a
non-empty status field, where the window is guaranteed non-empty; there
is no timer, evaluation being part of the per-line step. -/
theorem c2_error_candidate (cfg : Config) (st : WatcherState) (line : String)
    (n1 n2 : ℚ) (b1 b2 : Bool) :
    (parse_line line = none → (stepLine cfg st line n1 n2 b1 b2).2.2 = none) ∧
    (∀ d, parse_line line = some d →
      ((stepLine cfg st line n1 n2 b1 b2).2.2.isSome ↔
        ((stepLine cfg st line n1 n2 b1 b2).1.window ≠ [] ∧
          errRate (stepLine cfg st line n1 n2 b1 b2).1.window > cfg.threshold))) ∧
    (errRate (stepLine cfg st line n1 n2 b1 b2).1.window = cfg.threshold →
      (stepLine cfg st line n1 n2 b1 b2).2.2 = none) ∧
    (∀ d us, parse_line line = some d →
      List.lookup "upstream_status" d = some us → us ≠ "" →
      1 ≤ cfg.windowSize →
      (stepLine cfg st line n1 n2 b1 b2).1.window ≠ []) := by
  refine ⟨?_, ?_, ?_, ?_⟩
  · intro hp
    simp [stepLine, hp]
  · intro d hp
    simp only [stepLine, hp]
    exact errorPhase_out_isSome cfg st.lastErrorAlert _ n2
  · intro hrate
    cases ho : (stepLine cfg st line n1 n2 b1 b2).2.2 with
    | none => rfl
    | some o =>
      cases hp : parse_line line with
      | none => simp [stepLine, hp] at ho
      | some d =>
        have hiff := errorPhase_out_isSome cfg st.lastErrorAlert
          (stepLine cfg st line n1 n2 b1 b2).1.window n2
        have hsome : (stepLine cfg st line n1 n2 b1 b2).2.2 =
            (errorPhase cfg st.lastErrorAlert
              (stepLine cfg st line n1 n2 b1 b2).1.window n2).2 := by
          simp only [stepLine, hp]
        have hgt := (hiff.mp (by rw [← hsome, ho]; rfl)).2
        rw [hrate] at hgt
        exact absurd hgt (lt_irrefl _)
  · intro d us hp hus hne hN
    simp only [stepLine, hp, hus]
    have : truthyS (some us) = true := by simp [truthyS, hne]
    rw [this]
    simp only [if_true]
    exact observe_ne_nil _ _ _ hN

/-- Witness for C2 at a concrete input: one 500 status into an empty
window gives rate 100 % > 2 %, and a candidate is indeed raised. -/
theorem c2_error_candidate_witness :
    (stepLine cfgEx3 (initState 0) "upstream_status:500" 0 0 true true).2.2.isSome := by
  have h := (c2_error_candidate cfgEx3 (initState 0) "upstream_status:500"
    0 0 true true).2.1 [("upstream_status", "500")] (by decide)
  refine h.mpr ⟨by decide, ?_⟩
  show errRate [true] > cfgEx3.threshold
  norm_num [errRate, cfgEx3]

/-- C1: each candidate alert of either class is processed by the shared
gate, in order: maintenance suppresses with no timestamp update; elapsed
time ≤ cooldown throttles with no timestamp update; otherwise it fires
(`send_slack_alert` is invoked exactly in the `fired` outcome) and the
class's timestamp becomes the current reading; when no candidate is
raised the timestamp is untouched; and the resulting state and outcomes
are independent of the delivery results. -/
theorem c1_gate_policy (cfg : Config) (st : WatcherState) (line : String)
    (n1 n2 : ℚ) (b1 b2 : Bool) :
    (∀ last now : ℚ, cfg.maintenance = true →
      gate cfg.maintenance cfg.cooldown last now =
        (last, GateOutcome.suppressed)) ∧
    (∀ last now : ℚ, cfg.maintenance = false → now - last ≤ cfg.cooldown →
      gate cfg.maintenance cfg.cooldown last now =
        (last, GateOutcome.throttled)) ∧
    (∀ last now : ℚ, cfg.maintenance = false → now - last > cfg.cooldown →
      gate cfg.maintenance cfg.cooldown last now =
        (now, GateOutcome.fired)) ∧
    (∀ o, (stepLine cfg st line n1 n2 b1 b2).2.1 = some o →
      ((stepLine cfg st line n1 n2 b1 b2).1.lastFailoverAlert, o) =
        gate cfg.maintenance cfg.cooldown st.lastFailoverAlert n1) ∧
    ((stepLine cfg st line n1 n2 b1 b2).2.1 = none →
      (stepLine cfg st line n1 n2 b1 b2).1.lastFailoverAlert =
        st.lastFailoverAlert) ∧
    (∀ o, (stepLine cfg st line n1 n2 b1 b2).2.2 = some o →
      ((stepLine cfg st line n1 n2 b1 b2).1.lastErrorAlert, o) =
        gate cfg.maintenance cfg.cooldown st.lastErrorAlert n2) ∧
    ((stepLine cfg st line n1 n2 b1 b2).2.2 = none →
      (stepLine cfg st line n1 n2 b1 b2).1.lastErrorAlert =
        st.lastErrorAlert) ∧
    (∀ b1' b2', stepLine cfg st line n1 n2 b1' b2' =
      stepLine cfg st line n1 n2 b1 b2) := by
  refine ⟨?_, ?_, ?_, ?_, ?_, ?_, ?_, fun b1' b2' => rfl⟩
  · intro last now hm
    simp [gate, hm]
  · intro last now hm hle
    simp [gate, hm, not_lt.mpr hle]
  · intro last now hm hgt
    simp [gate, hm, hgt]
  · intro o ho
    cases hp : parse_line line with
    | none => simp [stepLine, hp] at ho
    | some parsed =>
      simp only [stepLine, hp] at ho ⊢
      exact failoverPhase_out_some cfg st.lastFailoverAlert _ _ n1 o ho
  · intro ho
    cases hp : parse_line line with
    | none => simp [stepLine, hp]
    | some parsed =>
      simp only [stepLine, hp] at ho ⊢
      exact failoverPhase_out_none cfg st.lastFailoverAlert _ _ n1 ho
  · intro o ho
    cases hp : parse_line line with
    | none => simp [stepLine, hp] at ho
    | some parsed =>
      simp only [stepLine, hp] at ho ⊢
      exact errorPhase_out_some cfg st.lastErrorAlert _ n2 o ho
  · intro ho
    cases hp : parse_line line with
    | none => simp [stepLine, hp]
    | some parsed =>
      simp only [stepLine, hp] at ho ⊢
      exact errorPhase_out_none cfg st.lastErrorAlert _ n2 ho

/-- Witness for C1 at a concrete input: with maintenance off and the
cooldown elapsed, the gate fires and moves the timestamp to `now`. -/
theorem c1_gate_policy_witness :
    gate cfgEx.maintenance cfgEx.cooldown 0 1000 =
      (1000, GateOutcome.fired) :=
  (c1_gate_policy cfgEx (initState 0) "pool:a" 0 0 true true).2.2.1 0 1000
    rfl (by norm_num [cfgEx])

theorem failoverCond_self (pool : Option String) :
    failoverCond pool pool = false := by
  simp [failoverCond]

theorem failoverCond_pool_none (lp0 : Option String) :
    failoverCond lp0 none = false := by
  simp [failoverCond, truthyS]

theorem failoverCond_pool_empty (lp0 : Option String) :
    failoverCond lp0 (some "") = false := by
  simp [failoverCond, truthyS]

theorem failoverCond_lp_empty (pool : Option String) :
    failoverCond (some "") pool = false := by
  simp [failoverCond, truthyS]

theorem initLastPool_none (pool : Option String) :
    initLastPool none pool = pool := rfl

theorem initLastPool_some (v : String) (pool : Option String) :
    initLastPool (some v) pool = some v := rfl

/-- Counterexample to C3 as stated: the record `pool: release:r1` has an
*empty* pool field, yet processing it from the Uninitialized state changes
the detector state (`last_pool` becomes the empty string, not `None`); the
run then shows the ruined detector: a subsequent `pool:a` then `pool:b`
raise no failover candidate at all, where the claim's state machine would
emit one for `pool:b`. -/
theorem c3_counterexample :
    (parse_line "pool: release:r1").bind (List.lookup "pool") = some "" ∧
    (initState 0).lastPool = none ∧
    (stepLine cfgEx (initState 0) "pool: release:r1" 0 0 true true).1.lastPool
      = some "" ∧
    (stepLine cfgEx
      (stepLine cfgEx
        (stepLine cfgEx (initState 0) "pool: release:r1" 0 0 true true).1
        "pool:a" 400 400 true true).1
      "pool:b" 800 800 true true).2.1 = none := by
  decide

/-- C3 amended: the detector leaves Uninitialized on the first parsed
record, adopting that record's pool value — `None` keeps it
Uninitialized, and an *empty* pool value moves it to a stuck
empty-string state — and this never emits an event; records whose pool
field is absent never change the tracked state and never emit; records
whose pool field is empty never emit, and change the state only from
Uninitialized (to the empty string); from the empty-string state no
event is ever emitted and the state never changes again. -/
theorem c3_amended_first_pool (cfg : Config) (st : WatcherState)
    (line : String) (n1 n2 : ℚ) (b1 b2 : Bool) :
    (∀ d, st.lastPool = none → parse_line line = some d →
      (stepLine cfg st line n1 n2 b1 b2).1.lastPool = List.lookup "pool" d ∧
      (stepLine cfg st line n1 n2 b1 b2).2.1 = none) ∧
    (∀ d, parse_line line = some d → List.lookup "pool" d = none →
      (stepLine cfg st line n1 n2 b1 b2).1.lastPool = st.lastPool ∧
      (stepLine cfg st line n1 n2 b1 b2).2.1 = none) ∧
    (∀ d, parse_line line = some d → List.lookup "pool" d = some "" →
      (stepLine cfg st line n1 n2 b1 b2).2.1 = none ∧
      (stepLine cfg st line n1 n2 b1 b2).1.lastPool =
        initLastPool st.lastPool (some "")) ∧
    (st.lastPool = some "" →
      (stepLine cfg st line n1 n2 b1 b2).1.lastPool = some "" ∧
      (stepLine cfg st line n1 n2 b1 b2).2.1 = none) ∧
    (parse_line line = none →
      (stepLine cfg st line n1 n2 b1 b2).1.lastPool = st.lastPool ∧
      (stepLine cfg st line n1 n2 b1 b2).2.1 = none) := by
  refine ⟨?_, ?_, ?_, ?_, ?_⟩
  · intro d hlp hp
    simp [stepLine, hp, hlp, initLastPool_none, failoverPhase,
      failoverCond_self]
  · intro d hp hpool
    cases hlp : st.lastPool with
    | none =>
      simp [stepLine, hp, hpool, hlp, initLastPool_none, failoverPhase,
        failoverCond_pool_none]
    | some v =>
      simp [stepLine, hp, hpool, hlp, initLastPool_some, failoverPhase,
        failoverCond_pool_none]
  · intro d hp hpool
    simp [stepLine, hp, hpool, failoverPhase, failoverCond_pool_empty]
  · intro hlp
    cases hp : parse_line line with
    | none => simp [stepLine, hp, hlp]
    | some d =>
      simp [stepLine, hp, hlp, initLastPool_some, failoverPhase,
        failoverCond_lp_empty]
  · intro hp
    simp [stepLine, hp]

/-- Witness for the amended C3 at a concrete input: a status-only record
leaves a tracked pool untouched and raises no failover candidate. -/
theorem c3_amended_first_pool_witness :
    (stepLine cfgEx ⟨[], 0, 0, some "a"⟩ "upstream_status:200" 5 5
      true true).1.lastPool = some "a" :=
  ((c3_amended_first_pool cfgEx ⟨[], 0, 0, some "a"⟩ "upstream_status:200"
    5 5 true true).2.1 [("upstream_status", "200")]
    (by decide) (by decide)).1

/-- C4: from a Tracking state with non-empty tracked pool `v`, a parsed
record whose non-empty pool `p` differs from `v` raises exactly one
failover candidate and the tracked pool becomes `p` immediately (in every
gate branch — fired, suppressed or throttled); afterwards any further
record carrying the same pool `p` raises no candidate, so repeated
identical new-pool lines during a suppressed or throttled period do not
re-trigger. -/
theorem c4_failover_transition (cfg : Config) (st : WatcherState)
    (line : String) (n1 n2 : ℚ) (b1 b2 : Bool) (v p : String)
    (d : List (String × String)) (hst : st.lastPool = some v) (hv : v ≠ "")
    (hd : parse_line line = some d) (hp : List.lookup "pool" d = some p)
    (hpne : p ≠ "") (hdiff : p ≠ v) :
    (stepLine cfg st line n1 n2 b1 b2).2.1.isSome ∧
    (stepLine cfg st line n1 n2 b1 b2).1.lastPool = some p ∧
    (∀ line2 n1' n2' b1' b2' d2, parse_line line2 = some d2 →
      List.lookup "pool" d2 = some p →
      (stepLine cfg (stepLine cfg st line n1 n2 b1 b2).1 line2
        n1' n2' b1' b2').2.1 = none) := by
  have hcond : failoverCond (some v) (some p) = true := by
    simp [failoverCond, truthyS, hpne, hv, hdiff]
  have h1 : (stepLine cfg st line n1 n2 b1 b2).1.lastPool = some p := by
    simp [stepLine, hd, hp, hst, initLastPool_some, failoverPhase, hcond]
  refine ⟨?_, h1, ?_⟩
  · simp [stepLine, hd, hp, hst, initLastPool_some, failoverPhase, hcond]
  · intro line2 n1' n2' b1' b2' d2 hd2 hp2
    generalize hq : (stepLine cfg st line n1 n2 b1 b2).1 = st2 at h1 ⊢
    simp [stepLine, hd2, hp2, h1, initLastPool_some, failoverPhase,
      failoverCond_self]

/-- Witness for C4 at a concrete input: tracked pool a, record `pool:b`
raises a candidate; an identical follow-up `pool:b` raises none. -/
theorem c4_failover_transition_witness :
    (stepLine cfgEx ⟨[], 0, 0, some "a"⟩ "pool:b" 1000 1000
      true true).2.1.isSome ∧
    (stepLine cfgEx (stepLine cfgEx ⟨[], 0, 0, some "a"⟩ "pool:b"
      1000 1000 true true).1 "pool:b" 1001 1001 true true).2.1 = none := by
  have h := c4_failover_transition cfgEx ⟨[], 0, 0, some "a"⟩ "pool:b"
    1000 1000 true true "a" "b" [("pool", "b")] rfl (by decide) (by decide)
    (by decide) (by decide) (by decide)
  exact ⟨h.1, h.2.2 "pool:b" 1001 1001 true true [("pool", "b")]
    (by decide) (by decide)⟩

/-! ## Parser characterization helpers (for the parser claims) -/

/-- Whether the literal `m` occurs as a contiguous substring of `s`
(at a start position before the end; for non-empty `m` this is exactly
where `re.search` can anchor the key marker). -/
def hasMarker (m : List Char) : List Char → Bool
  | [] => false
  | c :: rest => m.isPrefixOf (c :: rest) || hasMarker m rest

theorem grab_isSome (l : List Char) (h : '\n' ∉ l) : (grab l).isSome := by
  induction l with
  | nil => simp [grab]
  | cons c rest ih =>
    by_cases h1 : c :: rest = ['\n'] ∨ lookaheadB (c :: rest)
    · rw [grab, if_pos h1]
      rfl
    · have hc : ¬(c = '\n') := fun hh => h (hh ▸ List.mem_cons_self c rest)
      rw [grab, if_neg h1, if_neg hc, Option.isSome_map']
      exact ih fun hm => h (List.mem_cons_of_mem c hm)

theorem searchKey_isSome_iff (m : List Char) (hm : m ≠ []) (s : List Char)
    (h : '\n' ∉ s) : (searchKey m s).isSome ↔ hasMarker m s = true := by
  induction s with
  | nil =>
    cases m with
    | nil => exact absurd rfl hm
    | cons a m' => simp [searchKey, hasMarker]
  | cons c rest ih =>
    have hrest : '\n' ∉ rest := fun hm' => h (List.mem_cons_of_mem c hm')
    by_cases hpre : m.isPrefixOf (c :: rest)
    · have hsub : '\n' ∉ (c :: rest).drop m.length :=
        fun hmem => h (List.mem_of_mem_drop hmem)
      have hg := grab_isSome _ hsub
      cases hgr : grab ((c :: rest).drop m.length) with
      | none => rw [hgr] at hg; simp at hg
      | some v => simp [searchKey, hasMarker, hpre, hgr]
    · cases hgr : grab ((c :: rest).drop m.length) with
      | none => simp [searchKey, hasMarker, hpre, hgr, ih hrest]
      | some v => simp [searchKey, hasMarker, hpre, hgr, ih hrest]

theorem fieldFn_fst (line : String) (k : String) (pr : String × String)
    (h : fieldFn line k = some pr) : pr.1 = k := by
  unfold fieldFn at h
  cases hs : searchKey (k.data ++ [':']) line.data with
  | none => rw [hs] at h; simp at h
  | some v =>
    rw [hs] at h
    simp only [Option.map_some'] at h
    injection h with h
    rw [← h]

theorem lookup_filterMap_isSome (f : String → Option (String × String))
    (hf : ∀ k pr, f k = some pr → pr.1 = k) (ks : List String) (k : String) :
    (List.lookup k (ks.filterMap f)).isSome ↔ (k ∈ ks ∧ (f k).isSome) := by
  induction ks with
  | nil => simp
  | cons hd tl ih =>
    cases hfa : f hd with
    | none =>
      simp only [List.filterMap_cons, hfa]
      rw [ih]
      constructor
      · rintro ⟨hk, hs⟩
        exact ⟨List.mem_cons_of_mem hd hk, hs⟩
      · rintro ⟨hk, hs⟩
        rcases List.mem_cons.mp hk with rfl | hk'
        · rw [hfa] at hs
          simp at hs
        · exact ⟨hk', hs⟩
    | some pr =>
      obtain ⟨p1, p2⟩ := pr
      have hfst : p1 = hd := hf hd (p1, p2) hfa
      subst hfst
      simp only [List.filterMap_cons, hfa]
      by_cases hk : k = p1
      · subst hk
        simp [List.lookup_cons_self, hfa]
      · have hbeq : (k == p1) = false := beq_eq_false_iff_ne.mpr hk
        simp only [List.lookup_cons, hbeq]
        rw [ih]
        constructor
        · rintro ⟨hk', hs⟩
          exact ⟨List.mem_cons_of_mem p1 hk', hs⟩
        · rintro ⟨hk', hs⟩
          rcases List.mem_cons.mp hk' with rfl | hk''
          · exact absurd rfl hk
          · exact ⟨hk'', hs⟩

theorem lookup_filterMap_eq_some (f : String → Option (String × String))
    (hf : ∀ k pr, f k = some pr → pr.1 = k) (ks : List String)
    (k : String) (v : String)
    (h : List.lookup k (ks.filterMap f) = some v) :
    k ∈ ks ∧ f k = some (k, v) := by
  induction ks with
  | nil => simp at h
  | cons hd tl ih =>
    cases hfa : f hd with
    | none =>
      rw [List.filterMap_cons, hfa] at h
      have hres := ih h
      exact ⟨List.mem_cons_of_mem hd hres.1, hres.2⟩
    | some pr =>
      obtain ⟨p1, p2⟩ := pr
      have hfst : p1 = hd := hf hd (p1, p2) hfa
      subst hfst
      rw [List.filterMap_cons, hfa] at h
      by_cases hk : k = p1
      · subst hk
        rw [List.lookup_cons_self] at h
        injection h with h
        subst h
        exact ⟨List.mem_cons_self _ _, hfa⟩
      · have hbeq : (k == p1) = false := beq_eq_false_iff_ne.mpr hk
        simp only [List.lookup_cons, hbeq] at h
        have hres := ih h
        exact ⟨List.mem_cons_of_mem p1 hres.1, hres.2⟩

theorem dropWhile_dropWhile (p : Char → Bool) (l : List Char) :
    (l.dropWhile p).dropWhile p = l.dropWhile p := by
  induction l with
  | nil => rfl
  | cons a t ih =>
    by_cases ha : p a
    · simp [List.dropWhile_cons, ha, ih]
    · simp [List.dropWhile_cons, ha]

theorem dropWhile_head_not (p : Char → Bool) (l : List Char) (c : Char)
    (h : (l.dropWhile p).head? = some c) : p c = false := by
  have hh := List.head?_dropWhile_not p l
  rw [h] at hh
  exact hh

theorem dropWhile_eq_self (p : Char → Bool) (l : List Char)
    (h : ∀ c, l.head? = some c → p c = false) : l.dropWhile p = l := by
  cases l with
  | nil => rfl
  | cons a t =>
    have := h a rfl
    simp [List.dropWhile_cons, this]

theorem rstrip_append_eq (p : Char → Bool) (m : List Char) :
    (m.reverse.dropWhile p).reverse ++ (m.reverse.takeWhile p).reverse = m := by
  rw [← List.reverse_append, List.takeWhile_append_dropWhile,
    List.reverse_reverse]

theorem head_of_rstrip (p : Char → Bool) (m : List Char) (c : Char)
    (h : ((m.reverse.dropWhile p).reverse).head? = some c) :
    m.head? = some c := by
  have hsplit := rstrip_append_eq p m
  cases hr : (m.reverse.dropWhile p).reverse with
  | nil =>
    rw [hr] at h
    simp at h
  | cons a t =>
    rw [hr] at h hsplit
    rw [← hsplit]
    simpa using h

theorem pyStrip_idem (l : List Char) : pyStrip (pyStrip l) = pyStrip l := by
  unfold pyStrip
  have h1 : ((l.dropWhile pyIsSpace).reverse.dropWhile pyIsSpace).reverse.dropWhile
      pyIsSpace =
      ((l.dropWhile pyIsSpace).reverse.dropWhile pyIsSpace).reverse := by
    apply dropWhile_eq_self
    intro c hc
    have hhead := head_of_rstrip pyIsSpace (l.dropWhile pyIsSpace) c hc
    exact dropWhile_head_not pyIsSpace l c hhead
  rw [h1, List.reverse_reverse, dropWhile_dropWhile]

theorem parse_line_some (line : String) (d : List (String × String))
    (h : parse_line line = some d) :
    d = keys.filterMap (fieldFn line) ∧ d ≠ [] := by
  simp only [parse_line] at h
  split at h
  · exact absurd h (by simp)
  · next hc =>
    injection h with h
    refine ⟨h.symm, ?_⟩
    intro hnil
    exact hc (by rw [h, hnil]; rfl)

theorem parse_line_eq_none (line : String) :
    parse_line line = none ↔ keys.filterMap (fieldFn line) = [] := by
  simp only [parse_line]
  split
  · next hc =>
    simp [List.isEmpty_iff.mp hc]
  · next hc =>
    constructor
    · intro h
      simp at h
    · intro h
      exact absurd (by rw [h]; rfl) hc

theorem fieldFn_none_iff (line : String) (k : String)
    (hnl : '\n' ∉ line.data) :
    fieldFn line k = none ↔ hasMarker (k.data ++ [':']) line.data = false := by
  have hiff := searchKey_isSome_iff (k.data ++ [':']) (by simp) line.data hnl
  unfold fieldFn
  rw [Option.map_eq_none', ← Option.not_isSome_iff_eq_none, hiff,
    Bool.not_eq_true]

/-- C7: for a raw line (no embedded newline, as produced by the reader),
the parser returns "no match" iff none of the six key markers occurs in
the line; a returned mapping contains a key exactly when its marker
occurs (absent fields omitted); every stored value is the stripped lazy
match of the embedded regex (text from just after `key:` up to the next
whitespace-delimited `token:` marker or end of line) and is its own
strip (trimmed); and the documented multi-field example with an internal
comma-separated status parses as specified. -/
theorem c7_parse_contract (line : String) (hnl : '\n' ∉ line.data) :
    (parse_line line = none ↔
      ∀ k ∈ keys, hasMarker (k.data ++ [':']) line.data = false) ∧
    (∀ d, parse_line line = some d →
      (∀ k, k ∈ keys →
        ((List.lookup k d).isSome ↔
          hasMarker (k.data ++ [':']) line.data = true)) ∧
      (∀ k v, List.lookup k d = some v →
        k ∈ keys ∧
        (∃ raw, searchKey (k.data ++ [':']) line.data = some raw ∧
          v = String.mk (pyStrip raw)) ∧
        pyStripStr v = v)) ∧
    parse_line "upstream_status:500, 304 pool:app_a release:v1" =
      some [("pool", "app_a"), ("release", "v1"),
            ("upstream_status", "500, 304")] := by
  refine ⟨?_, ?_, by decide⟩
  · rw [parse_line_eq_none, List.filterMap_eq_nil_iff]
    constructor
    · intro h k hk
      exact (fieldFn_none_iff line k hnl).mp (h k hk)
    · intro h k hk
      exact (fieldFn_none_iff line k hnl).mpr (h k hk)
  · intro d hp
    obtain ⟨hd, hne⟩ := parse_line_some line d hp
    subst hd
    constructor
    · intro k hk
      rw [lookup_filterMap_isSome (fieldFn line) (fieldFn_fst line) keys k]
      have hiff := searchKey_isSome_iff (k.data ++ [':']) (by simp)
        line.data hnl
      constructor
      · rintro ⟨_, hs⟩
        simp only [fieldFn, Option.isSome_map'] at hs
        exact hiff.mp hs
      · intro hmk
        refine ⟨hk, ?_⟩
        simp only [fieldFn, Option.isSome_map']
        exact hiff.mpr hmk
    · intro k v hl
      obtain ⟨hk, hfk⟩ :=
        lookup_filterMap_eq_some (fieldFn line) (fieldFn_fst line) keys k v hl
      have hex : ∃ raw, searchKey (k.data ++ [':']) line.data = some raw ∧
          v = String.mk (pyStrip raw) := by
        simp only [fieldFn] at hfk
        cases hs : searchKey (k.data ++ [':']) line.data with
        | none =>
          rw [hs] at hfk
          simp at hfk
        | some raw =>
          rw [hs] at hfk
          simp only [Option.map_some'] at hfk
          injection hfk with hfk
          have hv : String.mk (pyStrip raw) = v := congrArg Prod.snd hfk
          exact ⟨raw, rfl, hv.symm⟩
      refine ⟨hk, hex, ?_⟩
      obtain ⟨raw, hs, hv⟩ := hex
      rw [hv]
      show String.mk (pyStrip (pyStrip raw)) = String.mk (pyStrip raw)
      rw [pyStrip_idem]

/-- Witness for C7 at concrete inputs: a line containing none of the six
markers parses to "no match". -/
theorem c7_parse_contract_witness : parse_line "nothing to see here" = none :=
  ((c7_parse_contract "nothing to see here" (by decide)).1).mpr (by decide)

/-- C8: the parser and classifier are total functions of their input
string (both are well-founded recursive definitions returning a value on
every input — there is no exception path in the embedding); moreover the
parser only ever returns "no match" or a non-empty map over the six
recognized keys, and the classifier can return true only through a
well-formed extracted three-digit token in [500, 600) — malformed
(non-3-digit) material contributes nothing, and fully digit-free input
yields false. -/
theorem c8_totality (s : String) :
    (parse_line s = none ∨
      ∃ d, parse_line s = some d ∧ d ≠ [] ∧ ∀ kv ∈ d, kv.1 ∈ keys) ∧
    (is_5xx s = true → ∃ n ∈ findTriples s.data, 500 ≤ n ∧ n < 600) ∧
    ((∀ c ∈ s.data, c.isDigit = false) → is_5xx s = false) := by
  refine ⟨?_, fun h => (is_5xx_eq_true_iff s).mp h,
    is_5xx_false_of_no_digit s⟩
  cases hp : parse_line s with
  | none => exact Or.inl rfl
  | some d =>
    right
    obtain ⟨hd, hne⟩ := parse_line_some s d hp
    refine ⟨d, rfl, hne, ?_⟩
    intro kv hkv
    rw [hd] at hkv
    rcases List.mem_filterMap.mp hkv with ⟨k, hk, hfk⟩
    rw [fieldFn_fst s k kv hfk]
    exact hk

/-- Witness for C8 at a concrete input: garbage input is classified
false rather than failing. -/
theorem c8_totality_witness : is_5xx "status unknown" = false :=
  (c8_totality "status unknown").2.2 (by decide)
